import Mathlib

/-!
Verification of the transactional snapshot store, the operation-lifecycle
reconcilers and the gateway selector of `src/fedimint_client.rs`.

Shallow embedding conventions:
  * Byte sequences (`Vec<u8>`) are `List Nat`.
  * The in-memory `MemDatabase` mirror (a `BTreeMap<Vec<u8>, Vec<u8>>` from
    `fedimint_core::db::mem_impl`) is an association list sorted strictly
    ascending by key in the lexicographic byte order, the order `Vec<u8>`
    has in Rust.
  * Fallible calls return `Option` (`none` models `Err`); external-call
    outcomes (durable write success, persistence-call success, balance and
    history query results) are explicit parameters.
-/

set_option autoImplicit false

namespace Harbor

/-- Bytes of a `Vec<u8>` value. -/
abbrev Bytes := List Nat

/-- Lexicographic strict order on byte strings; this is the `Ord` instance of
`Vec<u8>` in Rust, the key order of the `BTreeMap` backing `MemDatabase`. -/
def keyLt : Bytes → Bytes → Bool
  | [], [] => false
  | [], _ :: _ => true
  | _ :: _, [] => false
  | x :: xs, y :: ys => if x < y then true else if y < x then false else keyLt xs ys

theorem keyLt_irrefl (a : Bytes) : keyLt a a = false := by
  induction a with
  | nil => rfl
  | cons x xs ih => simp [keyLt, ih]

theorem keyLt_trans : ∀ {a b c : Bytes},
    keyLt a b = true → keyLt b c = true → keyLt a c = true
  | [], [], _, hab, _ => by simp [keyLt] at hab
  | [], _ :: _, [], _, hbc => by simp [keyLt] at hbc
  | [], _ :: _, _ :: _, _, _ => rfl
  | _ :: _, [], _, hab, _ => by simp [keyLt] at hab
  | _ :: _, _ :: _, [], _, hbc => by simp [keyLt] at hbc
  | x :: xs, y :: ys, z :: zs, hab, hbc => by
    simp only [keyLt] at hab hbc ⊢
    rcases Nat.lt_trichotomy x y with hxy | hxy | hxy
    · rcases Nat.lt_trichotomy y z with hyz | hyz | hyz
      · simp [Nat.lt_trans hxy hyz]
      · subst hyz; simp [hxy]
      · simp [Nat.lt_asymm hyz, hyz] at hbc
    · subst hxy
      simp [Nat.lt_irrefl] at hab
      rcases Nat.lt_trichotomy x z with hxz | hxz | hxz
      · simp [hxz]
      · subst hxz
        simp [Nat.lt_irrefl] at hbc ⊢
        exact keyLt_trans hab hbc
      · simp [Nat.lt_asymm hxz, hxz] at hbc
    · simp [Nat.lt_asymm hxy, hxy] at hab

theorem keyLt_total : ∀ {a b : Bytes},
    keyLt a b = false → keyLt b a = false → a = b
  | [], [], _, _ => rfl
  | [], _ :: _, hab, _ => by simp [keyLt] at hab
  | _ :: _, [], _, hba => by simp [keyLt] at hba
  | x :: xs, y :: ys, hab, hba => by
    simp only [keyLt] at hab hba
    rcases Nat.lt_trichotomy x y with hxy | hxy | hxy
    · simp [hxy] at hab
    · subst hxy
      simp [Nat.lt_irrefl] at hab hba
      simp [keyLt_total hab hba]
    · simp [hxy] at hba

/-- `bytesHasPfx p k` holds when `p` is a prefix of `k`; this is the key test
used by the `BTreeMap` prefix range scans of `MemDatabase`. -/
def bytesHasPfx : Bytes → Bytes → Bool
  | [], _ => true
  | _ :: _, [] => false
  | a :: as, b :: bs => a = b && bytesHasPfx as bs

@[simp] theorem bytesHasPfx_nil (k : Bytes) : bytesHasPfx [] k = true := rfl

/-- The in-memory mirror of one federation's key-value snapshot: a sorted
association list, the shallow embedding of the `BTreeMap` inside
`MemDatabase`. -/
abbrev Mirror := List (Bytes × Bytes)

/-- Strictly-ascending key order: the representation invariant of a
`BTreeMap` rendered as an association list. -/
def MirrorSorted (m : Mirror) : Prop :=
  List.Pairwise (fun a b : Bytes × Bytes => keyLt a.1 b.1 = true) m

instance (m : Mirror) : Decidable (MirrorSorted m) := by
  unfold MirrorSorted
  infer_instance

/-- `BTreeMap::get`: value stored at `k`, if any. -/
def mGet (k : Bytes) : Mirror → Option Bytes
  | [] => none
  | kv :: rest => if k = kv.1 then some kv.2 else mGet k rest

/-- `BTreeMap::insert`: the updated map together with the previous value at
the key, keeping the list sorted. -/
def mInsert (k v : Bytes) : Mirror → Mirror × Option Bytes
  | [] => ([(k, v)], none)
  | kv :: rest =>
    if k = kv.1 then ((k, v) :: rest, some kv.2)
    else if keyLt k kv.1 then ((k, v) :: kv :: rest, none)
    else
      let r := mInsert k v rest
      (kv :: r.1, r.2)

/-- `BTreeMap::remove`: the updated map together with the removed value. -/
def mRemove (k : Bytes) : Mirror → Mirror × Option Bytes
  | [] => ([], none)
  | kv :: rest =>
    if k = kv.1 then (rest, some kv.2)
    else
      let r := mRemove k rest
      (kv :: r.1, r.2)

/-- Ascending prefix range scan of the `BTreeMap`. -/
def mPrefixScan (p : Bytes) (m : Mirror) : Mirror :=
  m.filter fun kv => bytesHasPfx p kv.1

/-- `remove_by_prefix`: drop every pair whose key extends `p`. -/
def mPrefixRemove (p : Bytes) (m : Mirror) : Mirror :=
  m.filter fun kv => !bytesHasPfx p kv.1

theorem mPrefixScan_nil (m : Mirror) : mPrefixScan [] m = m := by
  simp [mPrefixScan, bytesHasPfx]

theorem mGet_eq_none_of_lt {k : Bytes} {m : Mirror}
    (h : ∀ kv ∈ m, keyLt k kv.1 = true) : mGet k m = none := by
  induction m with
  | nil => rfl
  | cons kv rest ih =>
    have hk : k ≠ kv.1 := by
      intro he
      have := h kv (List.mem_cons_self kv rest)
      rw [← he] at this
      simp [keyLt_irrefl] at this
    simp only [mGet, if_neg hk]
    exact ih fun b hb => h b (List.mem_cons_of_mem kv hb)

theorem mInsert_snd {m : Mirror} (k v : Bytes) (hs : MirrorSorted m) :
    (mInsert k v m).2 = mGet k m := by
  induction m with
  | nil => rfl
  | cons kv rest ih =>
    rcases List.pairwise_cons.mp hs with ⟨hhead, htail⟩
    by_cases he : k = kv.1
    · simp [mInsert, mGet, he]
    · by_cases hlt : keyLt k kv.1 = true
      · have : mGet k rest = none :=
          mGet_eq_none_of_lt fun b hb => keyLt_trans hlt (hhead b hb)
        simp [mInsert, mGet, he, hlt, this]
      · simp [mInsert, mGet, he, hlt, ih htail]

theorem mInsert_mem {m : Mirror} {k v : Bytes} {b : Bytes × Bytes}
    (h : b ∈ (mInsert k v m).1) : b ∈ m ∨ b = (k, v) := by
  induction m with
  | nil =>
    simp [mInsert] at h
    exact Or.inr h
  | cons kv rest ih =>
    by_cases he : k = kv.1
    · simp only [mInsert, if_pos he] at h
      rcases List.mem_cons.mp h with h1 | h1
      · exact Or.inr h1
      · exact Or.inl (List.mem_cons_of_mem kv h1)
    · by_cases hlt : keyLt k kv.1 = true
      · simp only [mInsert, if_neg he, if_pos hlt] at h
        rcases List.mem_cons.mp h with h1 | h1
        · exact Or.inr h1
        · exact Or.inl h1
      · simp only [mInsert, if_neg he, if_neg hlt] at h
        rcases List.mem_cons.mp h with h1 | h1
        · exact Or.inl (h1 ▸ List.mem_cons_self kv rest)
        · rcases ih h1 with h2 | h2
          · exact Or.inl (List.mem_cons_of_mem kv h2)
          · exact Or.inr h2

theorem mInsert_fst_sorted {m : Mirror} (k v : Bytes) (hs : MirrorSorted m) :
    MirrorSorted (mInsert k v m).1 := by
  induction m with
  | nil => simp [mInsert, MirrorSorted]
  | cons kv rest ih =>
    rcases List.pairwise_cons.mp hs with ⟨hhead, htail⟩
    by_cases he : k = kv.1
    · simp only [mInsert, if_pos he]
      exact List.pairwise_cons.mpr ⟨fun b hb => he ▸ hhead b hb, htail⟩
    · by_cases hlt : keyLt k kv.1 = true
      · simp only [mInsert, if_neg he, if_pos hlt]
        refine List.pairwise_cons.mpr ⟨?_, hs⟩
        intro b hb
        rcases List.mem_cons.mp hb with h1 | h1
        · rw [h1]; exact hlt
        · exact keyLt_trans hlt (hhead b h1)
      · simp only [mInsert, if_neg he, if_neg hlt]
        refine List.pairwise_cons.mpr ⟨?_, ih htail⟩
        intro b hb
        rcases mInsert_mem hb with h1 | h1
        · exact hhead b h1
        · rw [h1]
          cases hgt : keyLt kv.1 k with
          | true => rfl
          | false =>
            exact absurd (keyLt_total (Bool.of_not_eq_true hlt) hgt) he

theorem mRemove_snd (k : Bytes) (m : Mirror) : (mRemove k m).2 = mGet k m := by
  induction m with
  | nil => rfl
  | cons kv rest ih =>
    by_cases he : k = kv.1
    · simp [mRemove, mGet, he]
    · simp [mRemove, mGet, he, ih]

theorem mRemove_fst_sublist (k : Bytes) (m : Mirror) :
    (mRemove k m).1.Sublist m := by
  induction m with
  | nil => exact List.Sublist.refl []
  | cons kv rest ih =>
    by_cases he : k = kv.1
    · simp only [mRemove, if_pos he]
      exact List.sublist_cons_self kv rest
    · simp only [mRemove, if_neg he]
      exact List.Sublist.cons₂ kv ih

theorem mRemove_fst_sorted {m : Mirror} (k : Bytes) (hs : MirrorSorted m) :
    MirrorSorted (mRemove k m).1 :=
  hs.sublist (mRemove_fst_sublist k m)

theorem mPrefixRemove_sorted {m : Mirror} (p : Bytes) (hs : MirrorSorted m) :
    MirrorSorted (mPrefixRemove p m) :=
  hs.sublist (List.filter_sublist m)

theorem mInsert_append_of_gt {m : Mirror} {k : Bytes} (v : Bytes)
    (h : ∀ kv ∈ m, keyLt kv.1 k = true) : (mInsert k v m).1 = m ++ [(k, v)] := by
  induction m with
  | nil => rfl
  | cons kv rest ih =>
    have hgt : keyLt kv.1 k = true := h kv (List.mem_cons_self kv rest)
    have he : ¬(k = kv.1) := by
      intro heq
      rw [heq] at hgt
      simp [keyLt_irrefl] at hgt
    have hlt : ¬(keyLt k kv.1 = true) := by
      intro hl
      have := keyLt_trans hl hgt
      simp [keyLt_irrefl] at this
    simp only [mInsert, if_neg he, if_neg hlt, List.cons_append, List.cons.injEq, true_and]
    exact ih fun b hb => h b (List.mem_cons_of_mem kv hb)

/-- Replaying a pair list into a fresh mirror by `raw_insert_bytes`, in list
order: the hydration loop of `FedimintStorage::new`. -/
def replayPairs (pairs : List (Bytes × Bytes)) : Mirror :=
  pairs.foldl (fun acc kv => (mInsert kv.1 kv.2 acc).1) []

theorem foldl_mInsert_sorted {l : List (Bytes × Bytes)} :
    ∀ {m : Mirror}, MirrorSorted (m ++ l) →
      List.foldl (fun acc kv => (mInsert kv.1 kv.2 acc).1) m l = m ++ l := by
  induction l with
  | nil => intro m _; simp
  | cons kv l' ih =>
    intro m h
    have hgt : ∀ b ∈ m, keyLt b.1 kv.1 = true := by
      intro b hb
      exact (List.pairwise_append.mp h).2.2 b hb kv (List.mem_cons_self kv l')
    have hstep : (mInsert kv.1 kv.2 m).1 = m ++ [kv] := mInsert_append_of_gt kv.2 hgt
    have hassoc : m ++ kv :: l' = (m ++ [kv]) ++ l' := by simp
    rw [List.foldl_cons, hstep, ih (by rw [← hassoc]; exact h), ← hassoc]

theorem replayPairs_sorted {l : List (Bytes × Bytes)} (h : MirrorSorted l) :
    replayPairs l = l :=
  foldl_mInsert_sorted (m := []) (by simpa using h)

/-! ### The `bincode` wire format

`bincode::serialize` / `bincode::deserialize` (an external crate) with the
default legacy options: every `u64` length is written as 8 little-endian
bytes, a `Vec` is its length followed by its elements, and a tuple is its
components in order. `deserialize` fails when the input is too short and
tolerates trailing bytes. -/

/-- A `u64` as 8 little-endian bytes. -/
def le64 (n : Nat) : Bytes :=
  [n % 256, n / 256 % 256, n / 256 ^ 2 % 256, n / 256 ^ 3 % 256,
   n / 256 ^ 4 % 256, n / 256 ^ 5 % 256, n / 256 ^ 6 % 256, n / 256 ^ 7 % 256]

/-- Read a little-endian `u64` off the front of a byte stream. -/
def readLe64 : Bytes → Option (Nat × Bytes)
  | b0 :: b1 :: b2 :: b3 :: b4 :: b5 :: b6 :: b7 :: rest =>
    some (b0 + 256 * b1 + 256 ^ 2 * b2 + 256 ^ 3 * b3 + 256 ^ 4 * b4 +
      256 ^ 5 * b5 + 256 ^ 6 * b6 + 256 ^ 7 * b7, rest)
  | _ => none

/-- Take exactly `n` bytes off the stream. -/
def readChunk (n : Nat) (bs : Bytes) : Option (Bytes × Bytes) :=
  if n ≤ bs.length then some (bs.take n, bs.drop n) else none

/-- Serialization of one `(Vec<u8>, Vec<u8>)` pair. -/
def serPair (kv : Bytes × Bytes) : Bytes :=
  le64 kv.1.length ++ kv.1 ++ le64 kv.2.length ++ kv.2

/-- `bincode::serialize` of a `Vec<(Vec<u8>, Vec<u8>)>`. -/
def bincodeSerialize (l : List (Bytes × Bytes)) : Bytes :=
  le64 l.length ++ l.flatMap serPair

/-- Parse one `(Vec<u8>, Vec<u8>)` pair. -/
def readPair (bs : Bytes) : Option ((Bytes × Bytes) × Bytes) :=
  match readLe64 bs with
  | none => none
  | some (klen, r1) =>
    match readChunk klen r1 with
    | none => none
    | some (k, r2) =>
      match readLe64 r2 with
      | none => none
      | some (vlen, r3) =>
        match readChunk vlen r3 with
        | none => none
        | some (v, r4) => some ((k, v), r4)

/-- Parse `n` pairs. -/
def readPairs : Nat → Bytes → Option (List (Bytes × Bytes) × Bytes)
  | 0, bs => some ([], bs)
  | n + 1, bs =>
    match readPair bs with
    | none => none
    | some (kv, rest) =>
      match readPairs n rest with
      | none => none
      | some (kvs, rest') => some (kv :: kvs, rest')

/-- `bincode::deserialize` of a `Vec<(Vec<u8>, Vec<u8>)>`; `none` models a
deserialization error. -/
def bincodeDeserialize (bs : Bytes) : Option (List (Bytes × Bytes)) :=
  match readLe64 bs with
  | none => none
  | some (n, rest) =>
    match readPairs n rest with
    | none => none
    | some (kvs, _) => some kvs

theorem readLe64_le64 {n : Nat} (rest : Bytes) (h : n < 2 ^ 64) :
    readLe64 (le64 n ++ rest) = some (n, rest) := by
  simp only [le64, List.cons_append, List.nil_append, readLe64, Option.some.injEq,
    Prod.mk.injEq, and_true]
  omega

theorem readChunk_append (b rest : Bytes) :
    readChunk b.length (b ++ rest) = some (b, rest) := by
  simp [readChunk, List.take_left, List.drop_left]

theorem readPair_serPair {kv : Bytes × Bytes} (rest : Bytes)
    (hk : kv.1.length < 2 ^ 64) (hv : kv.2.length < 2 ^ 64) :
    readPair (serPair kv ++ rest) = some (kv, rest) := by
  have h1 : serPair kv ++ rest =
      le64 kv.1.length ++ (kv.1 ++ (le64 kv.2.length ++ (kv.2 ++ rest))) := by
    simp [serPair]
  rw [h1]
  simp only [readPair, readLe64_le64 _ hk, readChunk_append, readLe64_le64 _ hv]

theorem readPairs_flatMap {l : List (Bytes × Bytes)} (rest : Bytes)
    (hb : ∀ kv ∈ l, kv.1.length < 2 ^ 64 ∧ kv.2.length < 2 ^ 64) :
    readPairs l.length (l.flatMap serPair ++ rest) = some (l, rest) := by
  induction l with
  | nil => simp [readPairs]
  | cons kv l' ih =>
    have hkv := hb kv (List.mem_cons_self kv l')
    have h1 : (kv :: l').flatMap serPair ++ rest = serPair kv ++ (l'.flatMap serPair ++ rest) := by
      simp
    rw [List.length_cons, h1]
    simp only [readPairs, readPair_serPair _ hkv.1 hkv.2,
      ih fun b hbm => hb b (List.mem_cons_of_mem kv hbm)]

theorem bincode_roundtrip {l : List (Bytes × Bytes)} (hn : l.length < 2 ^ 64)
    (hb : ∀ kv ∈ l, kv.1.length < 2 ^ 64 ∧ kv.2.length < 2 ^ 64) :
    bincodeDeserialize (bincodeSerialize l) = some l := by
  have h0 : bincodeSerialize l = le64 l.length ++ (l.flatMap serPair ++ []) := by
    simp [bincodeSerialize]
  rw [bincodeDeserialize, h0, readLe64_le64 _ hn]
  have h1 := readPairs_flatMap (l := l) [] hb
  simp only [List.append_nil] at h1
  simp [h1]

theorem bincodeDeserialize_empty : bincodeDeserialize [] = none := rfl

/-! ### The durable blob store (`DBConnection`)

Modelled from the spec: the `DBConnection` implementation is not part of
`src/`; §6 of the spec gives its contract: one opaque blob per federation
id, `get_federation_value` returns it if present, `insert_new_federation`
creates the row, and `update_fedimint_data` overwrites the row's blob in
full.  A durable write that the backend rejects is modelled by the explicit
`updateOk` flag of `update_fedimint_data`. -/

/-- The durable store: one blob per federation id. -/
abbrev DurableDb := List (String × Bytes)

def dbGet : DurableDb → String → Option Bytes
  | [], _ => none
  | kv :: rest, key => if key = kv.1 then some kv.2 else dbGet rest key

def dbSet : DurableDb → String → Bytes → DurableDb
  | [], key, val => [(key, val)]
  | kv :: rest, key, val =>
    if key = kv.1 then (key, val) :: rest else kv :: dbSet rest key val

theorem dbGet_dbSet (d : DurableDb) (k : String) (v : Bytes) :
    dbGet (dbSet d k v) k = some v := by
  induction d with
  | nil => simp [dbGet, dbSet]
  | cons kv rest ih =>
    by_cases he : k = kv.1
    · simp [dbGet, dbSet, he]
    · simp [dbGet, dbSet, he, ih]

/-- Modelled from the spec: the `NewFedimint` row inserted by
`insert_new_federation` (`db_models::NewFedimint`, not under `src/`). -/
structure NewFedimint where
  id : String
  value : Bytes
deriving DecidableEq

/-- Modelled from the spec: `get_federation_value(federation_id) -> Option<Bytes>`. -/
def get_federation_value (d : DurableDb) (federation_id : String) : Option Bytes :=
  dbGet d federation_id

/-- Modelled from the spec: `insert_new_federation(id, initial_value)`. -/
def insert_new_federation (d : DurableDb) (nf : NewFedimint) : DurableDb :=
  dbSet d nf.id nf.value

/-- Modelled from the spec: `update_fedimint_data(federation_id, full_blob)`
with full-overwrite semantics; `updateOk = false` models a failed durable
write (the backend returning `Err`). -/
def update_fedimint_data (updateOk : Bool) (d : DurableDb) (federation_id : String)
    (blob : Bytes) : Option DurableDb :=
  if updateOk then some (dbSet d federation_id blob) else none

/-! ### `FedimintStorage` and `SQLPseudoTransaction` (`src/fedimint_client.rs`)

`FedimintStorage` owns the durable connection, a `MemDatabase` mirror and
the federation id; a `SQLPseudoTransaction` wraps one `MemTransaction`.
`MemTransaction` (from `fedimint_core::db::mem_impl`, an external
collaborator) snapshots the mirror at `begin_transaction`, applies every
operation to its working copy `tx_data`, keeps a savepoint copy, and its
own `commit_tx` writes the recorded operations back so that the mirror
becomes exactly `tx_data`.  State is passed explicitly: the durable store
and the mirror of the owning `FedimintStorage` accompany each operation. -/

/-- The in-flight transaction: working copy plus savepoint copy of the
mirror (the `MemTransaction` content), and the owning store's federation
id, exactly the fields of `SQLPseudoTransaction` that matter to its
behaviour. -/
structure SQLPseudoTransaction where
  federation_id : String
  txData : Mirror
  savepoint : Mirror
deriving DecidableEq

/-- `IRawDatabase::begin_transaction` for `FedimintStorage`: wrap a fresh
`MemTransaction` over the live mirror (working copy and initial savepoint
are both snapshots of the mirror). -/
def begin_transaction (federation_id : String) (memDb : Mirror) : SQLPseudoTransaction :=
  { federation_id := federation_id, txData := memDb, savepoint := memDb }

/-- The non-commit operations of `IDatabaseTransactionOpsCore` and
`IDatabaseTransactionOps` for `SQLPseudoTransaction`. -/
inductive TxOp
  | insertBytes (k v : Bytes)
  | getBytes (k : Bytes)
  | removeEntry (k : Bytes)
  | prefixScanAsc (p : Bytes)
  | prefixScanDesc (p : Bytes)
  | prefixRemove (p : Bytes)
  | setSavepoint
  | rollbackToSavepoint
deriving DecidableEq

/-- Result of one non-commit transaction operation. -/
inductive TxOpResult
  | bytes (b : Option Bytes)
  | pairs (l : List (Bytes × Bytes))
  | unit
deriving DecidableEq

/-- One non-commit operation of `SQLPseudoTransaction`.  Every method
delegates to `self.mem` only; the durable store `d` is threaded through to
make the frame property provable rather than implicit. -/
def applyTxOp (op : TxOp) (d : DurableDb) (t : SQLPseudoTransaction) :
    TxOpResult × DurableDb × SQLPseudoTransaction :=
  match op with
  | .insertBytes k v =>
    let r := mInsert k v t.txData
    (.bytes r.2, d, { t with txData := r.1 })
  | .getBytes k => (.bytes (mGet k t.txData), d, t)
  | .removeEntry k =>
    let r := mRemove k t.txData
    (.bytes r.2, d, { t with txData := r.1 })
  | .prefixScanAsc p => (.pairs (mPrefixScan p t.txData), d, t)
  | .prefixScanDesc p => (.pairs (mPrefixScan p t.txData).reverse, d, t)
  | .prefixRemove p => (.unit, d, { t with txData := mPrefixRemove p t.txData })
  | .setSavepoint => (.unit, d, { t with savepoint := t.txData })
  | .rollbackToSavepoint => (.unit, d, { t with txData := t.savepoint })

/-- A whole sequence of non-commit operations, results discarded. -/
def applyTxOps : List TxOp → DurableDb → SQLPseudoTransaction →
    DurableDb × SQLPseudoTransaction
  | [], d, t => (d, t)
  | op :: rest, d, t =>
    let r := applyTxOp op d t
    applyTxOps rest r.2.1 r.2.2

/-- `IRawDatabaseTransaction::commit_tx` for `SQLPseudoTransaction`:
collect the full pair list by an empty-prefix scan of the transaction's
view, apply the mirror-level commit (the mirror becomes `txData`),
serialize the pair list, and only then attempt the durable write.  Returns
the `Result` (`none` = the `CommitError` case) together with the new
durable store and the new mirror. -/
def commit_tx (updateOk : Bool) (d : DurableDb) (t : SQLPseudoTransaction) :
    Option Unit × DurableDb × Mirror :=
  let key_value_pairs := mPrefixScan [] t.txData
  let memDb' := t.txData
  let serialized_data := bincodeSerialize key_value_pairs
  match update_fedimint_data updateOk d t.federation_id serialized_data with
  | some d2 => (some (), d2, memDb')
  | none => (none, d, memDb')

/-- `FedimintStorage::new`: hydrate the mirror from the federation's blob
if present (deserialize, then replay every pair as an insert and commit the
replay transaction); if absent, insert an empty durable record
(`value: vec![]`) and leave the mirror empty.  `none` models the
`anyhow::Result` error path (the spec's `InitError`). -/
def fedimintStorageNew (d : DurableDb) (federation_id : String) :
    Option (DurableDb × Mirror) :=
  match get_federation_value d federation_id with
  | some v =>
    match bincodeDeserialize v with
    | some fedimint_data =>
      some (d, if fedimint_data.isEmpty then [] else replayPairs fedimint_data)
    | none => none
  | none =>
    some (insert_new_federation d { id := federation_id, value := [] }, [])

/-- Representation invariant of an in-flight transaction: both mirror
copies are sorted. -/
def TxInv (t : SQLPseudoTransaction) : Prop :=
  MirrorSorted t.txData ∧ MirrorSorted t.savepoint

theorem applyTxOp_inv (op : TxOp) (d : DurableDb) (t : SQLPseudoTransaction)
    (h : TxInv t) :
    TxInv (applyTxOp op d t).2.2 ∧
    (applyTxOp op d t).2.2.federation_id = t.federation_id ∧
    (applyTxOp op d t).2.1 = d := by
  rcases h with ⟨h1, h2⟩
  cases op with
  | insertBytes k v => exact ⟨⟨mInsert_fst_sorted k v h1, h2⟩, rfl, rfl⟩
  | getBytes k => exact ⟨⟨h1, h2⟩, rfl, rfl⟩
  | removeEntry k => exact ⟨⟨mRemove_fst_sorted k h1, h2⟩, rfl, rfl⟩
  | prefixScanAsc p => exact ⟨⟨h1, h2⟩, rfl, rfl⟩
  | prefixScanDesc p => exact ⟨⟨h1, h2⟩, rfl, rfl⟩
  | prefixRemove p => exact ⟨⟨mPrefixRemove_sorted p h1, h2⟩, rfl, rfl⟩
  | setSavepoint => exact ⟨⟨h1, h1⟩, rfl, rfl⟩
  | rollbackToSavepoint => exact ⟨⟨h2, h2⟩, rfl, rfl⟩

theorem applyTxOps_inv (ops : List TxOp) (d : DurableDb) (t : SQLPseudoTransaction)
    (h : TxInv t) :
    TxInv (applyTxOps ops d t).2 ∧
    (applyTxOps ops d t).2.federation_id = t.federation_id ∧
    (applyTxOps ops d t).1 = d := by
  induction ops generalizing d t with
  | nil => exact ⟨h, rfl, rfl⟩
  | cons op rest ih =>
    rcases applyTxOp_inv op d t h with ⟨h1, h2, h3⟩
    rcases ih (applyTxOp op d t).2.1 (applyTxOp op d t).2.2 h1 with ⟨g1, g2, g3⟩
    exact ⟨g1, g2.trans h2, g3.trans h3⟩

theorem hydrate_of_sorted {l : List (Bytes × Bytes)} (h : MirrorSorted l) :
    (if l.isEmpty then ([] : Mirror) else replayPairs l) = l := by
  cases l with
  | nil => rfl
  | cons kv rest => simpa using replayPairs_sorted h

/-- Fixed federation id used by the concrete evaluations below. -/
def fedId : String := "f"

/-- C1: a failing durable write makes `commit_tx` return an error
(`none`, the `CommitError` case), yet the mirror-level commit has already
happened — the returned mirror is the transaction's working copy `txData`
(every buffered mutation applied) while the durable store is returned
unchanged, still holding the old blob.  The mirror and the durable blob
therefore diverge exactly as the claim states. -/
theorem commit_tx_mirror_diverges (d : DurableDb) (t : SQLPseudoTransaction) :
    commit_tx false d t = (none, d, t.txData) := rfl

/-- C3: evaluation at the failing input.  On a fresh durable store, the
first open for federation id `"f"` succeeds, creates the durable record
with the raw empty blob `vec![]`, and yields an empty mirror; but a second
open finds that blob and `bincode::deserialize` of the empty byte string
fails (a `Vec` needs an 8-byte length header), so `FedimintStorage::new`
returns an error instead of the empty mirror the claim promises. -/
theorem empty_record_reopen_fails :
    fedimintStorageNew [] fedId = some ([(fedId, [])], []) ∧
    fedimintStorageNew [(fedId, [])] fedId = none := by
  constructor <;> rfl

/-- C2: round-trip.  Begin a transaction on any sorted mirror, apply any
finite sequence of non-commit operations (in particular any sequence of
`raw_insert_bytes` / `raw_remove_entry`), and commit with the durable
write succeeding: the durable store now maps the federation id to the
serialized full snapshot, and a fresh `FedimintStorage::new` for the same
federation id succeeds and hydrates a mirror that is exactly (not merely
up to order) the committed mirror `t1.txData`. -/
theorem commit_reopen_roundtrip
    (fid : String) (d d1 : DurableDb) (m0 : Mirror) (ops : List TxOp)
    (t1 : SQLPseudoTransaction)
    (hs : MirrorSorted m0)
    (happly : applyTxOps ops d (begin_transaction fid m0) = (d1, t1))
    (hn : t1.txData.length < 2 ^ 64)
    (hb : ∀ kv ∈ t1.txData, kv.1.length < 2 ^ 64 ∧ kv.2.length < 2 ^ 64) :
    commit_tx true d1 t1 =
      (some (), dbSet d1 fid (bincodeSerialize t1.txData), t1.txData) ∧
    fedimintStorageNew (dbSet d1 fid (bincodeSerialize t1.txData)) fid =
      some (dbSet d1 fid (bincodeSerialize t1.txData), t1.txData) := by
  have hinv := applyTxOps_inv ops d (begin_transaction fid m0) ⟨hs, hs⟩
  rw [happly] at hinv
  simp only [begin_transaction] at hinv
  obtain ⟨⟨hsort, -⟩, hfid, -⟩ := hinv
  have hupd : ∀ f : String, update_fedimint_data true d1 f (bincodeSerialize t1.txData)
      = some (dbSet d1 f (bincodeSerialize t1.txData)) := fun _ => rfl
  have hcommit : commit_tx true d1 t1 =
      (some (), dbSet d1 fid (bincodeSerialize t1.txData), t1.txData) := by
    simp only [commit_tx, mPrefixScan_nil, hupd, hfid]
  refine ⟨hcommit, ?_⟩
  have hget : get_federation_value (dbSet d1 fid (bincodeSerialize t1.txData)) fid =
      some (bincodeSerialize t1.txData) := dbGet_dbSet d1 fid _
  rw [fedimintStorageNew, hget]
  simp only [bincode_roundtrip hn hb, hydrate_of_sorted hsort]

def roundtripOps : List TxOp :=
  [.insertBytes [1] [2], .insertBytes [0] [3], .removeEntry [1], .insertBytes [0] [4]]

def roundtripTx : SQLPseudoTransaction :=
  { federation_id := fedId, txData := [([0], [4])], savepoint := [] }

/-- Witness for C2 at a concrete input: three inserts and a remove inside
one transaction, committed and re-opened. -/
theorem commit_reopen_roundtrip_witness :
    commit_tx true [] roundtripTx =
      (some (), dbSet [] fedId (bincodeSerialize roundtripTx.txData), roundtripTx.txData) ∧
    fedimintStorageNew (dbSet [] fedId (bincodeSerialize roundtripTx.txData)) fedId =
      some (dbSet [] fedId (bincodeSerialize roundtripTx.txData), roundtripTx.txData) :=
  commit_reopen_roundtrip fedId [] [] [] roundtripOps roundtripTx
    (by decide) (by decide) (by decide) (by decide)

/-- C8: frame property of the non-commit transaction operations.  Every
operation of `IDatabaseTransactionOpsCore` / `IDatabaseTransactionOps`
(insert, get, remove, ascending and descending prefix scans, prefix
remove, savepoint set and rollback) leaves the durable store entirely
unchanged, and `raw_insert_bytes` / `raw_remove_entry` return the previous
value stored at the key, if any. -/
theorem tx_ops_leave_durable_unchanged
    (d : DurableDb) (t : SQLPseudoTransaction) (op : TxOp) (k v : Bytes)
    (hs : MirrorSorted t.txData) :
    (applyTxOp op d t).2.1 = d ∧
    (applyTxOp (.insertBytes k v) d t).1 = .bytes (mGet k t.txData) ∧
    (applyTxOp (.removeEntry k) d t).1 = .bytes (mGet k t.txData) := by
  refine ⟨?_, ?_, ?_⟩
  · cases op <;> rfl
  · simp [applyTxOp, mInsert_snd k v hs]
  · simp [applyTxOp, mRemove_snd]

def frameDb : DurableDb := [(fedId, [0, 1])]

def frameTx : SQLPseudoTransaction :=
  { federation_id := fedId, txData := [([0], [1]), ([1], [2])], savepoint := [] }

/-- Witness for C8 at a concrete input. -/
theorem tx_ops_leave_durable_unchanged_witness :
    (applyTxOp .rollbackToSavepoint frameDb frameTx).2.1 = frameDb ∧
    (applyTxOp (.insertBytes [0] [9]) frameDb frameTx).1 =
      .bytes (mGet [0] frameTx.txData) ∧
    (applyTxOp (.removeEntry [0]) frameDb frameTx).1 =
      .bytes (mGet [0] frameTx.txData) :=
  tx_ops_leave_durable_unchanged frameDb frameTx .rollbackToSavepoint [0] [9] (by decide)

/-! ### The operation-lifecycle reconcilers

Each `spawn_*_subscription` function drains one lifecycle state stream in a
loop; the loop body is embedded as a step function from a state to the
list of side effects performed (UI messages sent, `mark_*`/`set_*`
persistence calls attempted) together with the break flag.  External-call
outcomes live in `ReconcilerEnv`: the balance returned by
`client.get_balance()`, the result of `storage.get_transaction_history()`
(`none` = `Err`, in which case `update_history` sends nothing), and the
result of the persistence calls.  A step returning `none` models a panic
of the task. -/

inductive SendSuccessMsg
  | lightning (preimage : Bytes)
  | onchain (txid : Nat)
deriving DecidableEq

inductive ReceiveSuccessMsg
  | lightning
  | onchain (txid : Nat)
deriving DecidableEq

/-- The UI messages the reconcilers produce (`CoreUIMsg` variants used in
`fedimint_client.rs`); history snapshots and amounts are opaque `Nat`s. -/
inductive CoreUIMsg
  | receiveSuccess (p : ReceiveSuccessMsg)
  | receiveFailed (reason : String)
  | sendSuccess (p : SendSuccessMsg)
  | sendFailure (reason : String)
  | balanceUpdated (amount : Nat)
  | transactionHistoryUpdated (history : Nat)
deriving DecidableEq

/-- The `mark_*` / `set_*` record-persistence calls of the `DBConnection`. -/
inductive PersistCall
  | markLnReceiveAsFailed
  | markLnReceiveAsSuccess
  | markLightningPaymentAsFailed
  | setLightningPaymentPreimage (preimage : Bytes)
  | markOnchainPaymentAsFailed
  | setOnchainPaymentTxid (txid : Nat)
  | markOnchainReceiveAsFailed
  | setOnchainReceiveTxid (txid : Nat) (amount : Nat) (fee : Nat)
  | markOnchainReceiveAsConfirmed
deriving DecidableEq

/-- One observable side effect of a reconciler loop iteration, in program
order; a persistence call records the outcome the backend returned
(`ok = false`: the call failed and the error was logged). -/
inductive Effect
  | sent (msg : CoreUIMsg)
  | persisted (call : PersistCall) (ok : Bool)
deriving DecidableEq

/-- Outcomes of the external collaborators during one loop iteration. -/
structure ReconcilerEnv where
  balance : Nat
  history : Option Nat
  persistOk : Bool
deriving DecidableEq

/-- `update_history`: sends `TransactionHistoryUpdated` only when
`get_transaction_history()` returned `Ok`. -/
def update_history (env : ReconcilerEnv) : List Effect :=
  match env.history with
  | some h => [.sent (.transactionHistoryUpdated h)]
  | none => []

/-- `fedimint_ln_client::LnReceiveState`. -/
inductive LnReceiveState
  | created
  | waitingForPayment
  | canceled (reason : String)
  | funded
  | awaitingFunds
  | claimed
deriving DecidableEq

/-- `fedimint_ln_client::LnPayState`; the `Success` preimage is the raw hex
string the collaborator delivers. -/
inductive LnPayState
  | created
  | canceled
  | funded
  | waitingForRefund (reason : String)
  | awaitingChange
  | success (preimage : String)
  | refunded (gatewayError : String)
  | unexpectedError (errorMessage : String)
deriving DecidableEq

/-- `fedimint_ln_client::InternalPayState`; a delivered preimage is already
a 32-byte array (`preimage.0`). -/
inductive InternalPayState
  | funding
  | preimage (p : Bytes)
  | refundSuccess (error : String)
  | refundError (errorMessage : String)
  | fundingFailed (error : String)
  | unexpectedError (errorMessage : String)
deriving DecidableEq

/-- `fedimint_wallet_client::WithdrawState`. -/
inductive WithdrawState
  | created
  | succeeded (txid : Nat)
  | failed (error : String)
deriving DecidableEq

/-- The fields of `BitcoinTransactionData` the onchain-receive loop reads:
the transaction id and the value of the funded output
(`btc_transaction.output[out_idx].value`). -/
structure BitcoinTransactionData where
  txid : Nat
  amount : Nat
deriving DecidableEq

/-- `fedimint_wallet_client::DepositState`. -/
inductive DepositState
  | waitingForTransaction
  | waitingForConfirmation (data : BitcoinTransactionData)
  | confirmed (data : BitcoinTransactionData)
  | claimed (data : BitcoinTransactionData)
  | failed (error : String)
deriving DecidableEq

/-- Value of one hex digit, matching `bitcoin::hashes::hex::FromHex`. -/
def hexDigitVal (c : Char) : Option Nat :=
  if 48 ≤ c.toNat ∧ c.toNat ≤ 57 then some (c.toNat - 48)
  else if 97 ≤ c.toNat ∧ c.toNat ≤ 102 then some (c.toNat - 87)
  else if 65 ≤ c.toNat ∧ c.toNat ≤ 70 then some (c.toNat - 55)
  else none

def hexPairs : List Char → Option Bytes
  | [] => some []
  | [_] => none
  | c1 :: c2 :: rest =>
    match hexDigitVal c1, hexDigitVal c2, hexPairs rest with
    | some hi, some lo, some bs => some ((16 * hi + lo) :: bs)
    | _, _, _ => none

/-- `<[u8; 32]>::from_hex`: succeeds exactly on 64 hex digits. -/
def hexDecode32 (s : String) : Option Bytes :=
  match hexPairs s.data with
  | some bs => if bs.length = 32 then some bs else none
  | none => none

/-- The string `"Canceled"` sent by the lightning-payment loop. -/
def canceledText : String := "Canceled"

/-- Loop body of `spawn_invoice_receive_subscription`. -/
def invoice_receive_step (env : ReconcilerEnv) : LnReceiveState → List Effect × Bool
  | .canceled reason =>
    ([.sent (.receiveFailed reason),
      .persisted .markLnReceiveAsFailed env.persistOk], true)
  | .claimed =>
    ([.sent (.receiveSuccess .lightning),
      .persisted .markLnReceiveAsSuccess env.persistOk,
      .sent (.balanceUpdated env.balance)] ++ update_history env, true)
  | _ => ([], false)

/-- Loop body of `spawn_invoice_payment_subscription`; `none` models the
panic of `FromHex::from_hex(&preimage).expect("Invalid preimage")`. -/
def invoice_payment_step (env : ReconcilerEnv) : LnPayState → Option (List Effect × Bool)
  | .canceled =>
    some ([.sent (.sendFailure canceledText),
      .persisted .markLightningPaymentAsFailed env.persistOk], true)
  | .unexpectedError errorMessage =>
    some ([.sent (.sendFailure errorMessage),
      .persisted .markLightningPaymentAsFailed env.persistOk], true)
  | .success preimage =>
    match hexDecode32 preimage with
    | none => none
    | some p =>
      some ([.sent (.sendSuccess (.lightning p)),
        .persisted (.setLightningPaymentPreimage p) env.persistOk,
        .sent (.balanceUpdated env.balance)] ++ update_history env, true)
  | _ => some ([], false)

/-- Loop body of `spawn_internal_payment_subscription`. -/
def internal_payment_step (env : ReconcilerEnv) : InternalPayState → List Effect × Bool
  | .fundingFailed error =>
    ([.sent (.receiveFailed error),
      .persisted .markLightningPaymentAsFailed env.persistOk], true)
  | .unexpectedError errorMessage =>
    ([.sent (.sendFailure errorMessage),
      .persisted .markLightningPaymentAsFailed env.persistOk], true)
  | .preimage p =>
    ([.sent (.sendSuccess (.lightning p)),
      .persisted (.setLightningPaymentPreimage p) env.persistOk,
      .sent (.balanceUpdated env.balance)] ++ update_history env, true)
  | _ => ([], false)

/-- Loop body of `spawn_onchain_payment_subscription`. -/
def onchain_payment_step (env : ReconcilerEnv) : WithdrawState → List Effect × Bool
  | .created => ([], false)
  | .failed error =>
    ([.sent (.sendFailure error),
      .persisted .markOnchainPaymentAsFailed env.persistOk], true)
  | .succeeded txid =>
    ([.sent (.sendSuccess (.onchain txid)),
      .persisted (.setOnchainPaymentTxid txid) env.persistOk,
      .sent (.balanceUpdated env.balance)] ++ update_history env, true)

/-- Loop body of `spawn_onchain_receive_subscription`; `fee_sats` is the
hard-coded `0`. -/
def onchain_receive_step (env : ReconcilerEnv) : DepositState → List Effect × Bool
  | .waitingForTransaction => ([], false)
  | .failed error =>
    ([.sent (.receiveFailed error),
      .persisted .markOnchainReceiveAsFailed env.persistOk], true)
  | .waitingForConfirmation data =>
    ([.sent (.receiveSuccess (.onchain data.txid)),
      .persisted (.setOnchainReceiveTxid data.txid data.amount 0) env.persistOk]
      ++ update_history env, false)
  | .confirmed _ => ([], false)
  | .claimed _ =>
    ([.sent (.balanceUpdated env.balance),
      .persisted .markOnchainReceiveAsConfirmed env.persistOk]
      ++ update_history env, true)

/-- A lifecycle state of any of the five reconciler kinds. -/
inductive ReconcilerState
  | lnReceive (s : LnReceiveState)
  | lnPay (s : LnPayState)
  | internalPay (s : InternalPayState)
  | onchainPay (s : WithdrawState)
  | onchainReceive (s : DepositState)
deriving DecidableEq

/-- Dispatch to the kind's loop body. -/
def stepOf (env : ReconcilerEnv) : ReconcilerState → Option (List Effect × Bool)
  | .lnReceive s => some (invoice_receive_step env s)
  | .lnPay s => invoice_payment_step env s
  | .internalPay s => some (internal_payment_step env s)
  | .onchainPay s => some (onchain_payment_step env s)
  | .onchainReceive s => some (onchain_receive_step env s)

def stepEffects (env : ReconcilerEnv) (s : ReconcilerState) : List Effect :=
  match stepOf env s with
  | some r => r.1
  | none => []

def stepBreaks (env : ReconcilerEnv) (s : ReconcilerState) : Bool :=
  match stepOf env s with
  | some r => r.2
  | none => true

def stepPanics (env : ReconcilerEnv) (s : ReconcilerState) : Bool :=
  (stepOf env s).isNone

/-- The terminal-success states: Claimed / Success / Preimage / Succeeded /
Claimed. -/
def isTerminalSuccess : ReconcilerState → Bool
  | .lnReceive .claimed => true
  | .lnPay (.success _) => true
  | .internalPay (.preimage _) => true
  | .onchainPay (.succeeded _) => true
  | .onchainReceive (.claimed _) => true
  | _ => false

/-- The terminal-failure states. -/
def isTerminalFailure : ReconcilerState → Bool
  | .lnReceive (.canceled _) => true
  | .lnPay .canceled => true
  | .lnPay (.unexpectedError _) => true
  | .internalPay (.fundingFailed _) => true
  | .internalPay (.unexpectedError _) => true
  | .onchainPay (.failed _) => true
  | .onchainReceive (.failed _) => true
  | _ => false

def isTerminal (s : ReconcilerState) : Bool :=
  isTerminalSuccess s || isTerminalFailure s

def isWaitingForConf : ReconcilerState → Bool
  | .onchainReceive (.waitingForConfirmation _) => true
  | _ => false

/-- A success-or-failure notification (the four terminal-outcome UI
messages, as opposed to balance / history refreshes). -/
def isSuccessFailMsg : CoreUIMsg → Bool
  | .receiveSuccess _ => true
  | .receiveFailed _ => true
  | .sendSuccess _ => true
  | .sendFailure _ => true
  | _ => false

def isPersistEffect : Effect → Bool
  | .persisted _ _ => true
  | .sent _ => false

def hasBalanceMsg (effs : List Effect) : Bool :=
  effs.any fun e =>
    match e with
    | .sent (.balanceUpdated _) => true
    | _ => false

def hasHistoryMsg (effs : List Effect) : Bool :=
  effs.any fun e =>
    match e with
    | .sent (.transactionHistoryUpdated _) => true
    | _ => false

/-- Number of success-or-failure UI messages in an effect trace. -/
def countSF : List Effect → Nat
  | [] => 0
  | .sent m :: rest => (if isSuccessFailMsg m then 1 else 0) + countSF rest
  | .persisted _ _ :: rest => countSF rest

/-- Number of persistence calls in an effect trace. -/
def countPersist : List Effect → Nat
  | [] => 0
  | .sent _ :: rest => countPersist rest
  | .persisted _ _ :: rest => 1 + countPersist rest

@[simp] theorem countSF_nil : countSF [] = 0 := rfl

@[simp] theorem countSF_sent (m : CoreUIMsg) (l : List Effect) :
    countSF (.sent m :: l) = (if isSuccessFailMsg m then 1 else 0) + countSF l := rfl

@[simp] theorem countSF_persisted (c : PersistCall) (ok : Bool) (l : List Effect) :
    countSF (.persisted c ok :: l) = countSF l := rfl

@[simp] theorem countSF_append (a b : List Effect) :
    countSF (a ++ b) = countSF a + countSF b := by
  induction a with
  | nil => simp
  | cons e rest ih => cases e <;> simp [ih, Nat.add_assoc]

@[simp] theorem countPersist_nil : countPersist [] = 0 := rfl

@[simp] theorem countPersist_sent (m : CoreUIMsg) (l : List Effect) :
    countPersist (.sent m :: l) = countPersist l := rfl

@[simp] theorem countPersist_persisted (c : PersistCall) (ok : Bool) (l : List Effect) :
    countPersist (.persisted c ok :: l) = 1 + countPersist l := rfl

@[simp] theorem countPersist_append (a b : List Effect) :
    countPersist (a ++ b) = countPersist a + countPersist b := by
  induction a with
  | nil => simp
  | cons e rest ih => cases e <;> simp [ih, Nat.add_assoc]

@[simp] theorem countSF_update_history (env : ReconcilerEnv) :
    countSF (update_history env) = 0 := by
  cases h : env.history <;> simp [update_history, h, isSuccessFailMsg]

@[simp] theorem countPersist_update_history (env : ReconcilerEnv) :
    countPersist (update_history env) = 0 := by
  cases h : env.history <;> simp [update_history, h]

/-- First effect of the trace is a UI send (so the notification precedes
any persistence attempt). -/
def firstEffectIsSend : List Effect → Bool
  | .sent _ :: _ => true
  | _ => false

/-- Rewrite the recorded persistence outcomes to `b`, leaving everything
else untouched. -/
def setPersistFlag (b : Bool) : Effect → Effect
  | .persisted c _ => .persisted c b
  | e => e

@[simp] theorem map_setPersistFlag_update_history (env : ReconcilerEnv) (b : Bool) :
    (update_history env).map (setPersistFlag b) = update_history env := by
  cases h : env.history <;> simp [update_history, h, setPersistFlag]

@[simp] theorem update_history_persistOk (env : ReconcilerEnv) (b : Bool) :
    update_history { env with persistOk := b } = update_history env := rfl

/-- Drive one reconciler loop over a state stream: consume states in
order, stopping at the first break; the result is the concatenated effect
trace and the states left unconsumed on the stream (`none` = the task
panicked). -/
def processStates {σ : Type} (step : σ → Option (List Effect × Bool)) :
    List σ → Option (List Effect × List σ)
  | [] => some ([], [])
  | s :: rest =>
    match step s with
    | none => none
    | some (effs, true) => some (effs, rest)
    | some (effs, false) =>
      match processStates step rest with
      | none => none
      | some (effs2, rem) => some (effs ++ effs2, rem)

theorem processStates_cons_nobreak {σ : Type} (step : σ → Option (List Effect × Bool))
    (s : σ) (rest : List σ) (e : List Effect) (h : step s = some (e, false)) :
    processStates step (s :: rest) =
      match processStates step rest with
      | none => none
      | some (effs2, rem) => some (e ++ effs2, rem) := by
  simp [processStates, h]

theorem processStates_silent {σ : Type} (step : σ → Option (List Effect × Bool))
    (pre rest : List σ) (h : ∀ s ∈ pre, step s = some ([], false)) :
    processStates step (pre ++ rest) = processStates step rest := by
  induction pre with
  | nil => rfl
  | cons s pre' ih =>
    rw [List.cons_append,
      processStates_cons_nobreak step s (pre' ++ rest) [] (h s (List.mem_cons_self s pre')),
      ih fun x hx => h x (List.mem_cons_of_mem s hx)]
    cases processStates step rest with
    | none => rfl
    | some r => rfl

theorem processStates_single_break {σ : Type} (step : σ → Option (List Effect × Bool))
    (t : σ) (e : List Effect) (h : step t = some (e, true)) :
    processStates step [t] = some (e, []) := by
  simp [processStates, h]

/-- C5: with the history query succeeding, a balance-updated message is
emitted exactly on the terminal-success states (Claimed / Success /
Preimage / Succeeded / Claimed), and a history-updated message exactly on
the terminal-success states plus the onchain-receive
WaitingForConfirmation state; terminal-failure states emit neither. -/
theorem balance_history_refresh
    (env : ReconcilerEnv) (hist : Nat) (s : ReconcilerState)
    (hh : env.history = some hist)
    (hp : stepPanics env s = false) :
    hasBalanceMsg (stepEffects env s) = isTerminalSuccess s ∧
    hasHistoryMsg (stepEffects env s) = (isTerminalSuccess s || isWaitingForConf s) := by
  have hu : update_history env = [.sent (.transactionHistoryUpdated hist)] := by
    simp [update_history, hh]
  cases s with
  | lnReceive t =>
    cases t <;>
      simp [stepEffects, stepOf, invoice_receive_step, hu, hasBalanceMsg, hasHistoryMsg,
        isTerminalSuccess, isWaitingForConf]
  | lnPay t =>
    cases t
    case success p =>
      cases hpd : hexDecode32 p with
      | none => simp [stepPanics, stepOf, invoice_payment_step, hpd] at hp
      | some bytes =>
        simp [stepEffects, stepOf, invoice_payment_step, hpd, hu, hasBalanceMsg,
          hasHistoryMsg, isTerminalSuccess, isWaitingForConf]
    all_goals
      simp [stepEffects, stepOf, invoice_payment_step, hu, hasBalanceMsg, hasHistoryMsg,
        isTerminalSuccess, isWaitingForConf]
  | internalPay t =>
    cases t <;>
      simp [stepEffects, stepOf, internal_payment_step, hu, hasBalanceMsg, hasHistoryMsg,
        isTerminalSuccess, isWaitingForConf]
  | onchainPay t =>
    cases t <;>
      simp [stepEffects, stepOf, onchain_payment_step, hu, hasBalanceMsg, hasHistoryMsg,
        isTerminalSuccess, isWaitingForConf]
  | onchainReceive t =>
    cases t <;>
      simp [stepEffects, stepOf, onchain_receive_step, hu, hasBalanceMsg, hasHistoryMsg,
        isTerminalSuccess, isWaitingForConf]

/-- Environment used by the concrete witnesses: balance 5, history query
returning snapshot 3, persistence succeeding. -/
def envW : ReconcilerEnv := { balance := 5, history := some 3, persistOk := true }

/-- Witness for C5 at the lightning-receive Claimed state. -/
theorem balance_history_refresh_witness :
    hasBalanceMsg (stepEffects envW (.lnReceive .claimed)) =
      isTerminalSuccess (.lnReceive .claimed) ∧
    hasHistoryMsg (stepEffects envW (.lnReceive .claimed)) =
      (isTerminalSuccess (.lnReceive .claimed) || isWaitingForConf (.lnReceive .claimed)) :=
  balance_history_refresh envW 3 (.lnReceive .claimed) rfl rfl

/-- C7: on every terminal transition of every reconciler kind the first
effect is a UI send (the notification precedes the persistence attempt),
exactly one persistence call is made, the loop breaks; and flipping the
persistence outcome changes nothing but the recorded outcome flag — the
same messages are sent in the same order, the loop still breaks, and the
task does not abort. -/
theorem notify_before_persist
    (env : ReconcilerEnv) (b : Bool) (s : ReconcilerState)
    (ht : isTerminal s = true)
    (hp : stepPanics env s = false) :
    stepBreaks env s = true ∧
    firstEffectIsSend (stepEffects env s) = true ∧
    countPersist (stepEffects env s) = 1 ∧
    stepEffects { env with persistOk := b } s = (stepEffects env s).map (setPersistFlag b) ∧
    stepBreaks { env with persistOk := b } s = true ∧
    stepPanics { env with persistOk := b } s = false := by
  cases s with
  | lnReceive t =>
    cases t <;>
      simp_all [isTerminal, isTerminalSuccess, isTerminalFailure, stepBreaks, stepEffects,
        stepPanics, stepOf, invoice_receive_step, firstEffectIsSend, setPersistFlag]
  | lnPay t =>
    cases t
    case success p =>
      cases hpd : hexDecode32 p with
      | none => simp [stepPanics, stepOf, invoice_payment_step, hpd] at hp
      | some bytes =>
        simp_all [stepBreaks, stepEffects, stepPanics, stepOf, invoice_payment_step, hpd,
          firstEffectIsSend, setPersistFlag]
    all_goals
      simp_all [isTerminal, isTerminalSuccess, isTerminalFailure, stepBreaks, stepEffects,
        stepPanics, stepOf, invoice_payment_step, firstEffectIsSend, setPersistFlag]
  | internalPay t =>
    cases t <;>
      simp_all [isTerminal, isTerminalSuccess, isTerminalFailure, stepBreaks, stepEffects,
        stepPanics, stepOf, internal_payment_step, firstEffectIsSend, setPersistFlag]
  | onchainPay t =>
    cases t <;>
      simp_all [isTerminal, isTerminalSuccess, isTerminalFailure, stepBreaks, stepEffects,
        stepPanics, stepOf, onchain_payment_step, firstEffectIsSend, setPersistFlag]
  | onchainReceive t =>
    cases t <;>
      simp_all [isTerminal, isTerminalSuccess, isTerminalFailure, stepBreaks, stepEffects,
        stepPanics, stepOf, onchain_receive_step, firstEffectIsSend, setPersistFlag]

/-- Witness for C7 at the lightning-receive Canceled state. -/
theorem notify_before_persist_witness :
    stepBreaks envW (.lnReceive (.canceled canceledText)) = true ∧
    firstEffectIsSend (stepEffects envW (.lnReceive (.canceled canceledText))) = true ∧
    countPersist (stepEffects envW (.lnReceive (.canceled canceledText))) = 1 ∧
    stepEffects { envW with persistOk := false } (.lnReceive (.canceled canceledText)) =
      (stepEffects envW (.lnReceive (.canceled canceledText))).map (setPersistFlag false) ∧
    stepBreaks { envW with persistOk := false } (.lnReceive (.canceled canceledText)) = true ∧
    stepPanics { envW with persistOk := false } (.lnReceive (.canceled canceledText)) = false :=
  notify_before_persist envW false (.lnReceive (.canceled canceledText)) rfl rfl

/-- C10: in the lightning-payment reconciler, a Success state whose
preimage is not valid 32-byte hex makes the loop body panic (the `expect`
on the hex decode, modelled by `none`): no failure message is sent and no
error is returned.  When the preimage does decode to 32 bytes the step
sends SendSuccess with the decoded preimage, so under the precondition
that every Success preimage is valid hex the panic branch is
unreachable. -/
theorem lnpay_invalid_preimage_panics (env : ReconcilerEnv) (p : String) :
    (hexDecode32 p = none → invoice_payment_step env (.success p) = none) ∧
    (∀ bytes, hexDecode32 p = some bytes →
      invoice_payment_step env (.success p) =
        some ([.sent (.sendSuccess (.lightning bytes)),
          .persisted (.setLightningPaymentPreimage bytes) env.persistOk,
          .sent (.balanceUpdated env.balance)] ++ update_history env, true)) := by
  constructor
  · intro h
    simp [invoice_payment_step, h]
  · intro bytes h
    simp [invoice_payment_step, h]

/-- A string that is not valid hex. -/
def badPreimage : String := "zz"

/-- 64 zero hex digits: a valid 32-byte preimage encoding. -/
def zeroPreimageHex : String :=
  "0000000000000000000000000000000000000000000000000000000000000000"

/-- Witness for C10: the panic branch at a concrete invalid preimage and
the success branch at a concrete valid one. -/
theorem lnpay_invalid_preimage_panics_witness :
    invoice_payment_step envW (.success badPreimage) = none ∧
    invoice_payment_step envW (.success zeroPreimageHex) =
      some ([.sent (.sendSuccess (.lightning (List.replicate 32 0))),
        .persisted (.setLightningPaymentPreimage (List.replicate 32 0)) envW.persistOk,
        .sent (.balanceUpdated envW.balance)] ++ update_history envW, true) :=
  ⟨(lnpay_invalid_preimage_panics envW badPreimage).1 (by decide),
   (lnpay_invalid_preimage_panics envW zeroPreimageHex).2 (List.replicate 32 0) (by decide)⟩

/-- The break states of the lightning-receive loop. -/
def lnReceiveTerminal : LnReceiveState → Bool
  | .canceled _ => true
  | .claimed => true
  | _ => false

/-- The break states of the lightning-payment loop. -/
def lnPayTerminal : LnPayState → Bool
  | .canceled => true
  | .unexpectedError _ => true
  | .success _ => true
  | _ => false

/-- The break states of the internal-payment loop. -/
def internalPayTerminal : InternalPayState → Bool
  | .fundingFailed _ => true
  | .unexpectedError _ => true
  | .preimage _ => true
  | _ => false

/-- The break states of the onchain-payment loop. -/
def withdrawTerminal : WithdrawState → Bool
  | .succeeded _ => true
  | .failed _ => true
  | _ => false

/-- The break states of the onchain-receive loop. -/
def depositTerminal : DepositState → Bool
  | .failed _ => true
  | .claimed _ => true
  | _ => false

def depositFailedB : DepositState → Bool
  | .failed _ => true
  | _ => false

/-- Number of WaitingForConfirmation states in an onchain-receive stream. -/
def countWfc : List DepositState → Nat
  | [] => 0
  | .waitingForConfirmation _ :: rest => 1 + countWfc rest
  | _ :: rest => countWfc rest

theorem invoice_receive_step_silent (env : ReconcilerEnv) (t : LnReceiveState)
    (h : lnReceiveTerminal t = false) : invoice_receive_step env t = ([], false) := by
  cases t <;> simp_all [lnReceiveTerminal, invoice_receive_step]

theorem invoice_payment_step_silent (env : ReconcilerEnv) (t : LnPayState)
    (h : lnPayTerminal t = false) : invoice_payment_step env t = some ([], false) := by
  cases t <;> simp_all [lnPayTerminal, invoice_payment_step]

theorem internal_payment_step_silent (env : ReconcilerEnv) (t : InternalPayState)
    (h : internalPayTerminal t = false) : internal_payment_step env t = ([], false) := by
  cases t <;> simp_all [internalPayTerminal, internal_payment_step]

theorem onchain_payment_step_silent (env : ReconcilerEnv) (t : WithdrawState)
    (h : withdrawTerminal t = false) : onchain_payment_step env t = ([], false) := by
  cases t <;> simp_all [withdrawTerminal, onchain_payment_step]

theorem onchain_receive_step_nobreak (env : ReconcilerEnv) (t : DepositState)
    (h : depositTerminal t = false) : (onchain_receive_step env t).2 = false := by
  cases t <;> simp_all [depositTerminal, onchain_receive_step]

theorem processStates_deposit_front (env : ReconcilerEnv) (pre rest : List DepositState)
    (h : ∀ s ∈ pre, depositTerminal s = false) :
    processStates (fun s => some (onchain_receive_step env s)) (pre ++ rest) =
      match processStates (fun s => some (onchain_receive_step env s)) rest with
      | none => none
      | some r =>
        some (pre.flatMap (fun s => (onchain_receive_step env s).1) ++ r.1, r.2) := by
  induction pre with
  | nil =>
    simp only [List.nil_append, List.flatMap_nil]
    cases processStates (fun s => some (onchain_receive_step env s)) rest with
    | none => rfl
    | some r => simp
  | cons s pre' ih =>
    have hs := h s (List.mem_cons_self s pre')
    have heta : onchain_receive_step env s = ((onchain_receive_step env s).1, false) := by
      rcases he : onchain_receive_step env s with ⟨e, b⟩
      have hb := onchain_receive_step_nobreak env s hs
      rw [he] at hb
      simp only at hb
      rw [hb]
    rw [List.cons_append,
      processStates_cons_nobreak _ s (pre' ++ rest) (onchain_receive_step env s).1
        (congrArg some heta),
      ih fun x hx => h x (List.mem_cons_of_mem s hx)]
    cases processStates (fun s => some (onchain_receive_step env s)) rest with
    | none => rfl
    | some r => simp

theorem counts_deposit_front (env : ReconcilerEnv) (pre : List DepositState)
    (h : ∀ s ∈ pre, depositTerminal s = false) :
    countSF (pre.flatMap fun s => (onchain_receive_step env s).1) = countWfc pre ∧
    countPersist (pre.flatMap fun s => (onchain_receive_step env s).1) = countWfc pre := by
  induction pre with
  | nil => simp [countWfc]
  | cons s pre' ih =>
    have hs := h s (List.mem_cons_self s pre')
    rcases ih (fun x hx => h x (List.mem_cons_of_mem s hx)) with ⟨h1, h2⟩
    cases s <;>
      simp_all [depositTerminal, onchain_receive_step, countWfc, isSuccessFailMsg]

/-- C6 (amended): for a stream whose states are all non-terminal except a
final terminal state, each of the five reconciler loops consumes the whole
stream, breaks, and leaves nothing unconsumed.  The four
lightning/internal/onchain-payment kinds perform exactly one persistence
call and exactly one success-or-failure notification, both at the terminal
transition.  The onchain-receive kind performs one persistence call at the
terminal transition plus one per intermediate WaitingForConfirmation
state, and its success notifications are emitted at the
WaitingForConfirmation states only — its terminal Claimed state emits no
success-or-failure notification at all (Failed emits one). -/
theorem reconciler_termination_effects (env : ReconcilerEnv) :
    (∀ pre t, (∀ s ∈ pre, lnReceiveTerminal s = false) → lnReceiveTerminal t = true →
      (processStates (fun s => some (invoice_receive_step env s)) (pre ++ [t])).map
        (fun r => (countSF r.1, countPersist r.1, r.2)) = some (1, 1, [])) ∧
    (∀ pre t, (∀ s ∈ pre, lnPayTerminal s = false) → lnPayTerminal t = true →
      (∀ p, t = .success p → (hexDecode32 p).isSome = true) →
      (processStates (invoice_payment_step env) (pre ++ [t])).map
        (fun r => (countSF r.1, countPersist r.1, r.2)) = some (1, 1, [])) ∧
    (∀ pre t, (∀ s ∈ pre, internalPayTerminal s = false) → internalPayTerminal t = true →
      (processStates (fun s => some (internal_payment_step env s)) (pre ++ [t])).map
        (fun r => (countSF r.1, countPersist r.1, r.2)) = some (1, 1, [])) ∧
    (∀ pre t, (∀ s ∈ pre, withdrawTerminal s = false) → withdrawTerminal t = true →
      (processStates (fun s => some (onchain_payment_step env s)) (pre ++ [t])).map
        (fun r => (countSF r.1, countPersist r.1, r.2)) = some (1, 1, [])) ∧
    (∀ pre t, (∀ s ∈ pre, depositTerminal s = false) → depositTerminal t = true →
      (processStates (fun s => some (onchain_receive_step env s)) (pre ++ [t])).map
        (fun r => (countSF r.1, countPersist r.1, r.2)) =
        some (countWfc pre + (if depositFailedB t then 1 else 0), countWfc pre + 1, [])) := by
  refine ⟨?_, ?_, ?_, ?_, ?_⟩
  · intro pre t hpre ht
    rw [processStates_silent _ pre [t]
      fun s hs => congrArg some (invoice_receive_step_silent env s (hpre s hs))]
    cases t <;>
      simp_all [lnReceiveTerminal, processStates, invoice_receive_step, isSuccessFailMsg]
  · intro pre t hpre ht hv
    rw [processStates_silent _ pre [t]
      fun s hs => invoice_payment_step_silent env s (hpre s hs)]
    cases t
    case success p =>
      cases hpd : hexDecode32 p with
      | none => simp [hpd] at hv
      | some bytes =>
        simp [processStates, invoice_payment_step, hpd, isSuccessFailMsg]
    all_goals
      simp_all [lnPayTerminal, processStates, invoice_payment_step, isSuccessFailMsg]
  · intro pre t hpre ht
    rw [processStates_silent _ pre [t]
      fun s hs => congrArg some (internal_payment_step_silent env s (hpre s hs))]
    cases t <;>
      simp_all [internalPayTerminal, processStates, internal_payment_step, isSuccessFailMsg]
  · intro pre t hpre ht
    rw [processStates_silent _ pre [t]
      fun s hs => congrArg some (onchain_payment_step_silent env s (hpre s hs))]
    cases t <;>
      simp_all [withdrawTerminal, processStates, onchain_payment_step, isSuccessFailMsg]
  · intro pre t hpre ht
    rw [processStates_deposit_front env pre [t] hpre]
    rcases counts_deposit_front env pre hpre with ⟨h1, h2⟩
    cases t <;>
      simp_all [depositTerminal, depositFailedB, processStates, onchain_receive_step,
        isSuccessFailMsg, Nat.add_comm]

/-- The payload of the counterexample deposit Claimed state. -/
def claimData : BitcoinTransactionData := { txid := 7, amount := 21 }

/-- Counterexample to C6 as stated: an onchain-receive stream that ends in
the terminal Claimed state.  The run terminates consuming the whole
stream, but emits zero success-or-failure UI notifications — the claim
demands exactly one terminal UI notification (a success or failure
message) for every kind. -/
theorem onchain_receive_terminal_no_notification :
    (processStates (fun s => some (onchain_receive_step envW s))
        [DepositState.claimed claimData]).map
      (fun r => (countSF r.1, r.2)) = some (0, []) := by
  decide

/-- The failure reason string used by the C6 witness. -/
def reasonText : String := "expired"

/-- Witness for the amended C6 at a concrete lightning-receive stream. -/
theorem reconciler_termination_effects_witness :
    (processStates (fun s => some (invoice_receive_step envW s))
        ([LnReceiveState.created] ++ [LnReceiveState.canceled reasonText])).map
      (fun r => (countSF r.1, countPersist r.1, r.2)) = some (1, 1, []) :=
  (reconciler_termination_effects envW).1 [LnReceiveState.created]
    (LnReceiveState.canceled reasonText) (by decide) rfl

/-! ### The gateway selector (`select_gateway`)

The registry entries are `LightningGatewayAnnouncement`s (`vetted` flag
plus the gateway `info`); `ln.select_gateway(&gateway_id)` — the attempt
to resolve a candidate to a usable routing handle — is modelled as a
function from gateway id to `Option LightningGateway` supplied by the
environment (the selector calls it with the same id in both the vetted
branch and the fee branch, so one deterministic function models both
call sites). -/

structure RoutingFees where
  base_msat : Nat
  proportional_millionths : Nat
deriving DecidableEq

structure LightningGateway where
  gateway_id : Nat
  fees : RoutingFees
  supports_private_payments : Bool
deriving DecidableEq

structure LightningGatewayAnnouncement where
  info : LightningGateway
  vetted : Bool
deriving DecidableEq

/-- The first loop of `select_gateway`: early-return a resolvable vetted
candidate; otherwise, for each candidate whose announced fees satisfy
`base_msat >= 1_000 && proportional_millionths >= 100`, resolve it and
keep it as the running selection when it supports private payments or no
selection exists yet. -/
def selectGatewayLoop (resolve : Nat → Option LightningGateway) :
    List LightningGatewayAnnouncement → Option LightningGateway → Option LightningGateway
  | [], selected => selected
  | gw :: rest, selected =>
    match (if gw.vetted then resolve gw.info.gateway_id else none) with
    | some g => some g
    | none =>
      let selected2 :=
        if 1000 ≤ gw.info.fees.base_msat ∧ 100 ≤ gw.info.fees.proportional_millionths then
          match resolve gw.info.gateway_id with
          | some g =>
            if g.supports_private_payments || selected.isNone then some g else selected
          | none => selected
        else selected
      selectGatewayLoop resolve rest selected2

/-- The fallback loop: first candidate that resolves, in registry order. -/
def firstResolvable (resolve : Nat → Option LightningGateway) :
    List LightningGatewayAnnouncement → Option LightningGateway
  | [] => none
  | gw :: rest =>
    match resolve gw.info.gateway_id with
    | some g => some g
    | none => firstResolvable resolve rest

/-- `select_gateway`: the two scans plus the fallback scan. -/
def select_gateway (resolve : Nat → Option LightningGateway)
    (gateways : List LightningGatewayAnnouncement) : Option LightningGateway :=
  match selectGatewayLoop resolve gateways none with
  | some g => some g
  | none => firstResolvable resolve gateways

/-- Fee-qualifying, resolvable, non-private, non-vetted gateway 1. -/
def gwA : LightningGateway :=
  { gateway_id := 1, fees := { base_msat := 1000, proportional_millionths := 100 },
    supports_private_payments := false }

/-- Fee-qualifying, resolvable, non-private, non-vetted gateway 2. -/
def gwB : LightningGateway :=
  { gateway_id := 2, fees := { base_msat := 1000, proportional_millionths := 100 },
    supports_private_payments := false }

def annA : LightningGatewayAnnouncement := { info := gwA, vetted := false }

def annB : LightningGatewayAnnouncement := { info := gwB, vetted := false }

def resolveAB : Nat → Option LightningGateway := fun i =>
  if i = 1 then some gwA else if i = 2 then some gwB else none

/-- Counterexample to C4 as stated: registry `[annA, annB]`, no vetted
candidate, both candidates fee-qualifying and resolvable, neither
supporting private payments.  The claim says the later candidate replaces
the earlier running selection whenever the previous selection does not
support private payments, which would select `gwB`; the code keeps `gwA`
because it only replaces when the *new* candidate supports private
payments (or no selection exists yet). -/
theorem select_gateway_keeps_first_nonprivate :
    select_gateway resolveAB [annA, annB] = some gwA ∧ gwA ≠ gwB := by
  constructor
  · decide
  · decide

/-- C4 (amended): in the fee-preference scan, a resolvable fee-qualifying
non-vetted candidate becomes the running selection when there is no
running selection yet; when a running selection exists, the new candidate
replaces it exactly when the new candidate supports private payments —
otherwise the previous running selection is kept, whether or not that
previous selection supports private payments. -/
theorem select_gateway_step_replacement
    (resolve : Nat → Option LightningGateway)
    (gw : LightningGatewayAnnouncement) (rest : List LightningGatewayAnnouncement)
    (g : LightningGateway)
    (hv : gw.vetted = false)
    (hq : 1000 ≤ gw.info.fees.base_msat ∧ 100 ≤ gw.info.fees.proportional_millionths)
    (hr : resolve gw.info.gateway_id = some g) :
    selectGatewayLoop resolve (gw :: rest) none = selectGatewayLoop resolve rest (some g) ∧
    (∀ s, selectGatewayLoop resolve (gw :: rest) (some s) =
      selectGatewayLoop resolve rest
        (if g.supports_private_payments then some g else some s)) := by
  constructor
  · simp [selectGatewayLoop, hv, hq, hr]
  · intro s
    cases hp : g.supports_private_payments <;>
      simp [selectGatewayLoop, hv, hq, hr, hp]

/-- Witness for the amended C4: with no running selection the candidate is
taken; with a non-private running selection and a non-private new
candidate the previous selection is kept. -/
theorem select_gateway_step_replacement_witness :
    selectGatewayLoop resolveAB (annA :: []) none = selectGatewayLoop resolveAB [] (some gwA) ∧
    selectGatewayLoop resolveAB (annA :: []) (some gwB) =
      selectGatewayLoop resolveAB []
        (if gwA.supports_private_payments then some gwA else some gwB) :=
  ⟨(select_gateway_step_replacement resolveAB annA [] gwA rfl (by decide) rfl).1,
   (select_gateway_step_replacement resolveAB annA [] gwA rfl (by decide) rfl).2 gwB⟩

theorem selectGatewayLoop_skip
    (resolve : Nat → Option LightningGateway)
    (l : List LightningGatewayAnnouncement) (sel : Option LightningGateway)
    (h : ∀ a ∈ l, a.vetted = false ∧
      ¬(1000 ≤ a.info.fees.base_msat ∧ 100 ≤ a.info.fees.proportional_millionths)) :
    selectGatewayLoop resolve l sel = sel := by
  induction l with
  | nil => rfl
  | cons gw rest ih =>
    rcases h gw (List.mem_cons_self gw rest) with ⟨h1, h2⟩
    have hstep : selectGatewayLoop resolve (gw :: rest) sel =
        selectGatewayLoop resolve rest sel := by
      simp [selectGatewayLoop, h1, h2]
    rw [hstep]
    exact ih fun a ha => h a (List.mem_cons_of_mem gw ha)

theorem firstResolvable_spec
    (resolve : Nat → Option LightningGateway)
    (pre : List LightningGatewayAnnouncement) (ann : LightningGatewayAnnouncement)
    (post : List LightningGatewayAnnouncement) (g : LightningGateway)
    (hpre : ∀ b ∈ pre, resolve b.info.gateway_id = none)
    (hr : resolve ann.info.gateway_id = some g) :
    firstResolvable resolve (pre ++ ann :: post) = some g := by
  induction pre with
  | nil => simp [firstResolvable, hr]
  | cons b pre' ih =>
    have hb := hpre b (List.mem_cons_self b pre')
    simp only [List.cons_append, firstResolvable, hb]
    exact ih fun x hx => hpre x (List.mem_cons_of_mem b hx)

theorem firstResolvable_none
    (resolve : Nat → Option LightningGateway)
    (l : List LightningGatewayAnnouncement)
    (h : ∀ a ∈ l, resolve a.info.gateway_id = none) :
    firstResolvable resolve l = none := by
  induction l with
  | nil => rfl
  | cons a rest ih =>
    simp only [firstResolvable, h a (List.mem_cons_self a rest)]
    exact ih fun x hx => h x (List.mem_cons_of_mem a hx)

/-- C9: when no candidate is vetted and none satisfies the fee-threshold
condition, the selector returns the first resolvable candidate in registry
order, and `none` when no candidate resolves. -/
theorem gateway_fallback
    (resolve : Nat → Option LightningGateway)
    (gateways : List LightningGatewayAnnouncement)
    (hall : ∀ a ∈ gateways, a.vetted = false ∧
      ¬(1000 ≤ a.info.fees.base_msat ∧ 100 ≤ a.info.fees.proportional_millionths)) :
    (∀ pre ann post g, gateways = pre ++ ann :: post →
      (∀ b ∈ pre, resolve b.info.gateway_id = none) →
      resolve ann.info.gateway_id = some g →
      select_gateway resolve gateways = some g) ∧
    ((∀ a ∈ gateways, resolve a.info.gateway_id = none) →
      select_gateway resolve gateways = none) := by
  have hskip := selectGatewayLoop_skip resolve gateways none hall
  constructor
  · intro pre ann post g hsplit hpre hr
    subst hsplit
    simp only [select_gateway, hskip]
    exact firstResolvable_spec resolve pre ann post g hpre hr
  · intro hnone
    simp only [select_gateway, hskip]
    exact firstResolvable_none resolve gateways hnone

/-- Unresolvable, non-vetted, fee-unqualifying gateway 3. -/
def gwLow : LightningGateway :=
  { gateway_id := 3, fees := { base_msat := 0, proportional_millionths := 0 },
    supports_private_payments := false }

/-- Resolvable, non-vetted, fee-unqualifying gateway 4. -/
def gwLow2 : LightningGateway :=
  { gateway_id := 4, fees := { base_msat := 0, proportional_millionths := 0 },
    supports_private_payments := false }

def annLow : LightningGatewayAnnouncement := { info := gwLow, vetted := false }

def annLow2 : LightningGatewayAnnouncement := { info := gwLow2, vetted := false }

def resolveLow : Nat → Option LightningGateway := fun i =>
  if i = 4 then some gwLow2 else none

/-- Witness for C9: only the second candidate resolves, so it is
selected by the fallback scan. -/
theorem gateway_fallback_witness :
    select_gateway resolveLow [annLow, annLow2] = some gwLow2 :=
  (gateway_fallback resolveLow [annLow, annLow2] (by decide)).1
    [annLow] annLow2 [] gwLow2 rfl (by decide) (by decide)

end Harbor
